import Mathlib

/-!
Verification of the `hubot-redis-brain` adapter (`src/redis-brain.js`).

The development shallowly embeds the adapter's logic:

* a model of JSON values together with models of the JavaScript builtins
  `JSON.stringify` and `JSON.parse` (serializer and a fuel-based
  recursive-descent reader), with a proved round-trip theorem;
* pure models of the adapter's event handlers (`getData` callback, the
  `save` handler, the `auth` and `connect` wiring, the `error` handler);
* a model of environment resolution (`getRedisEnv`, `buildCloudFoundryURL`)
  and of the parts of Node's legacy `url.parse` the adapter consumes;
* a small transition system capturing the auto-save gating around the
  initial load.

JavaScript numbers are modelled as integers (the snapshots at issue are
maps of program data; IEEE floating point is out of scope), and strings
as lists of unicode scalar values.
-/

namespace RedisBrain

/- JSON values.  `Json`/`JsonList`/`JsonMembers` are mutually inductive so
that structural recursion and induction over arrays and objects stay
elementary.  Object members keep their textual order (as JavaScript does). -/
mutual
inductive Json where
  | null : Json
  | bool (b : Bool) : Json
  | num (n : Int) : Json
  | str (s : List Char) : Json
  | arr (elems : JsonList) : Json
  | obj (members : JsonMembers) : Json
  deriving DecidableEq
inductive JsonList where
  | nil : JsonList
  | cons (hd : Json) (tl : JsonList) : JsonList
  deriving DecidableEq
inductive JsonMembers where
  | nil : JsonMembers
  | cons (key : List Char) (v : Json) (tl : JsonMembers) : JsonMembers
  deriving DecidableEq
end

/-- Decimal digit character for `n < 10` (defaults to `0` out of range). -/
def digitChar (n : Nat) : Char :=
  match n with
  | 0 => '0' | 1 => '1' | 2 => '2' | 3 => '3' | 4 => '4'
  | 5 => '5' | 6 => '6' | 7 => '7' | 8 => '8' | 9 => '9'
  | _ => '0'

/-- Fuelled decimal printer for naturals (structural, so it evaluates in the
kernel); `natToDigits` supplies sufficient fuel. -/
def natToDigitsF : Nat → Nat → List Char
  | 0, _ => []
  | fuel + 1, n =>
    if n < 10 then [digitChar n] else natToDigitsF fuel (n / 10) ++ [digitChar (n % 10)]

/-- Decimal digit string of a natural number, most significant first. -/
def natToDigits (n : Nat) : List Char := natToDigitsF (n + 1) n

/-- Decimal rendering of an integer, as JavaScript renders integral numbers. -/
def intChars (n : Int) : List Char :=
  if n < 0 then '-' :: natToDigits n.natAbs else natToDigits n.toNat

/-- Lower-case hexadecimal digit character for `n < 16`. -/
def hexDigitChar (n : Nat) : Char :=
  match n with
  | 0 => '0' | 1 => '1' | 2 => '2' | 3 => '3' | 4 => '4'
  | 5 => '5' | 6 => '6' | 7 => '7' | 8 => '8' | 9 => '9'
  | 10 => 'a' | 11 => 'b' | 12 => 'c' | 13 => 'd' | 14 => 'e' | 15 => 'f'
  | _ => '0'

/-- The `\u00xx` escape of a control character. -/
def escU (c : Char) : List Char :=
  '\\' :: 'u' :: '0' :: '0' :: hexDigitChar (c.toNat / 16) :: [hexDigitChar (c.toNat % 16)]

/-- Escaping of one character inside a JSON string literal, following
`JSON.stringify`: quote and backslash get two-character escapes, the five
named control characters get their short escapes, all other control
characters get a `\u00xx` escape, everything else is emitted verbatim. -/
def escapeChar (c : Char) : List Char :=
  if c = '"' then ['\\', '"']
  else if c = '\\' then ['\\', '\\']
  else if c = Char.ofNat 8 then ['\\', 'b']
  else if c = Char.ofNat 9 then ['\\', 't']
  else if c = Char.ofNat 10 then ['\\', 'n']
  else if c = Char.ofNat 12 then ['\\', 'f']
  else if c = Char.ofNat 13 then ['\\', 'r']
  else if c.toNat < 32 then escU c
  else [c]

/-- Escaped body of a JSON string literal. -/
def escList : List Char → List Char
  | [] => []
  | c :: cs => escapeChar c ++ escList cs

/- Serialization of JSON values, character for character the output of the
JavaScript builtin `JSON.stringify` (compact form: no whitespace). -/
mutual
def jchars : Json → List Char
  | .null => "null".data
  | .bool true => "true".data
  | .bool false => "false".data
  | .num n => intChars n
  | .str s => '"' :: (escList s ++ ['"'])
  | .arr xs => '[' :: arrHeadChars xs
  | .obj m => '{' :: objHeadChars m
def arrHeadChars : JsonList → List Char
  | .nil => [']']
  | .cons h t => jchars h ++ arrTailChars t
def arrTailChars : JsonList → List Char
  | .nil => [']']
  | .cons h t => ',' :: (jchars h ++ arrTailChars t)
def objHeadChars : JsonMembers → List Char
  | .nil => ['}']
  | .cons k v t => '"' :: (escList k ++ '"' :: ':' :: (jchars v ++ objTailChars t))
def objTailChars : JsonMembers → List Char
  | .nil => ['}']
  | .cons k v t => ',' :: '"' :: (escList k ++ '"' :: ':' :: (jchars v ++ objTailChars t))
end

/-- Model of the JavaScript builtin `JSON.stringify` on our JSON values. -/
def JSONstringify (j : Json) : List Char := jchars j

/-- Numeric value of a decimal digit character. -/
def digitVal (c : Char) : Nat := c.toNat - '0'.toNat

/-- Value of a decimal digit string. -/
def digitsVal (cs : List Char) : Nat := cs.foldl (fun a c => a * 10 + digitVal c) 0

/-- Greedy parse of a decimal natural number (at least one digit). -/
def parseNat (cs : List Char) : Option (Nat × List Char) :=
  let ds := cs.takeWhile (fun c => c.isDigit)
  if ds.isEmpty then none
  else some (digitsVal ds, cs.dropWhile (fun c => c.isDigit))

/-- Value of a hexadecimal digit character, `none` for non-hex characters
(48, 87 and 55 are the code offsets of `0`, `a` and `A`). -/
def hexVal (c : Char) : Option Nat :=
  if c.isDigit then some (c.toNat - 48)
  else if 'a' ≤ c && c ≤ 'f' then some (c.toNat - 87)
  else if 'A' ≤ c && c ≤ 'F' then some (c.toNat - 55)
  else none

/-- Reader for the body of a JSON string literal (after the opening quote),
returning the decoded characters and the input after the closing quote. -/
def parseStrBody : List Char → Option (List Char × List Char)
  | [] => none
  | c :: rest =>
    if c = '"' then some ([], rest)
    else if c = '\\' then
      match rest with
      | [] => none
      | e :: rest2 =>
        if e = '"' then (parseStrBody rest2).map fun p => ('"' :: p.1, p.2)
        else if e = '\\' then (parseStrBody rest2).map fun p => ('\\' :: p.1, p.2)
        else if e = '/' then (parseStrBody rest2).map fun p => ('/' :: p.1, p.2)
        else if e = 'b' then (parseStrBody rest2).map fun p => (Char.ofNat 8 :: p.1, p.2)
        else if e = 't' then (parseStrBody rest2).map fun p => (Char.ofNat 9 :: p.1, p.2)
        else if e = 'n' then (parseStrBody rest2).map fun p => (Char.ofNat 10 :: p.1, p.2)
        else if e = 'f' then (parseStrBody rest2).map fun p => (Char.ofNat 12 :: p.1, p.2)
        else if e = 'r' then (parseStrBody rest2).map fun p => (Char.ofNat 13 :: p.1, p.2)
        else if e = 'u' then
          match rest2 with
          | h1 :: h2 :: h3 :: h4 :: rest3 =>
            match hexVal h1, hexVal h2, hexVal h3, hexVal h4 with
            | some v1, some v2, some v3, some v4 =>
              (parseStrBody rest3).map fun p =>
                (Char.ofNat (((v1 * 16 + v2) * 16 + v3) * 16 + v4) :: p.1, p.2)
            | _, _, _, _ => none
          | _ => none
        else none
    else (parseStrBody rest).map fun p => (c :: p.1, p.2)

/-- Head test on a character list. -/
def headIs (ch : Char) : List Char → Bool
  | [] => false
  | c :: _ => c = ch

/-- Consume an expected literal sequence of characters. -/
def expectChars : List Char → List Char → Option (List Char)
  | [], r => some r
  | _ :: _, [] => none
  | e :: es, c :: r => if c = e then expectChars es r else none

/- Fuel-based recursive-descent reader for (compact) JSON text, the model of
the JavaScript builtin `JSON.parse` restricted to the values `JSON.stringify`
produces: `parseVal` reads one value, `parseMember` one `"key":value` pair,
`parseArrTail`/`parseMemTail` the continuation of an array or object after
one element. -/
mutual
def parseVal : Nat → List Char → Option (Json × List Char)
  | 0, _ => none
  | _ + 1, [] => none
  | fuel + 1, c :: r =>
    if c = 'n' then (expectChars "ull".data r).map fun r2 => (Json.null, r2)
    else if c = 't' then (expectChars "rue".data r).map fun r2 => (Json.bool true, r2)
    else if c = 'f' then (expectChars "alse".data r).map fun r2 => (Json.bool false, r2)
    else if c = '"' then (parseStrBody r).map fun p => (Json.str p.1, p.2)
    else if c = '[' then
      if headIs ']' r then some (Json.arr JsonList.nil, r.tail)
      else
        (parseVal fuel r).bind fun p =>
          (parseArrTail fuel p.2).map fun q => (Json.arr (JsonList.cons p.1 q.1), q.2)
    else if c = '{' then
      if headIs '}' r then some (Json.obj JsonMembers.nil, r.tail)
      else
        (parseMember fuel r).bind fun pm =>
          (parseMemTail fuel pm.2).map fun q =>
            (Json.obj (JsonMembers.cons pm.1.1 pm.1.2 q.1), q.2)
    else if c = '-' then (parseNat r).map fun p => (Json.num (-(p.1 : Int)), p.2)
    else if c.isDigit then (parseNat (c :: r)).map fun p => (Json.num (p.1 : Int), p.2)
    else none
def parseMember : Nat → List Char → Option ((List Char × Json) × List Char)
  | 0, _ => none
  | _ + 1, [] => none
  | fuel + 1, c :: r =>
    if c = '"' then
      (parseStrBody r).bind fun pk =>
        match pk.2 with
        | c2 :: r2 =>
          if c2 = ':' then (parseVal fuel r2).map fun pv => ((pk.1, pv.1), pv.2)
          else none
        | [] => none
    else none
def parseArrTail : Nat → List Char → Option (JsonList × List Char)
  | 0, _ => none
  | _ + 1, [] => none
  | fuel + 1, c :: r =>
    if c = ']' then some (JsonList.nil, r)
    else if c = ',' then
      (parseVal fuel r).bind fun p =>
        (parseArrTail fuel p.2).map fun q => (JsonList.cons p.1 q.1, q.2)
    else none
def parseMemTail : Nat → List Char → Option (JsonMembers × List Char)
  | 0, _ => none
  | _ + 1, [] => none
  | fuel + 1, c :: r =>
    if c = '}' then some (JsonMembers.nil, r)
    else if c = ',' then
      (parseMember fuel r).bind fun pm =>
        (parseMemTail fuel pm.2).map fun q => (JsonMembers.cons pm.1.1 pm.1.2 q.1, q.2)
    else none
end

/-- Model of the JavaScript builtin `JSON.parse` (compact JSON text): read one
value and require the input to be exhausted. -/
def JSONparse (cs : List Char) : Option Json :=
  match parseVal cs.length cs with
  | some (j, []) => some j
  | _ => none

/-- Predicate on the residual input after a serialized number: greedy digit
reading must not run into it. -/
def noDigitHead : List Char → Prop
  | [] => True
  | c :: _ => c.isDigit = false

/- Fuel needed by `parseVal`/`parseArrTail`/`parseMemTail` to read back a
serialized value. -/
mutual
def jfuel : Json → Nat
  | .null => 1
  | .bool _ => 1
  | .num _ => 1
  | .str _ => 1
  | .arr xs => 1 + lfuel xs
  | .obj m => 1 + mfuel m
def lfuel : JsonList → Nat
  | .nil => 1
  | .cons h t => 1 + Nat.max (jfuel h) (lfuel t)
def mfuel : JsonMembers → Nat
  | .nil => 1
  | .cons _ v t => 1 + Nat.max (1 + jfuel v) (mfuel t)
end

/-- Serialized form of one object member, `"key":value`. -/
def memberChars (k : List Char) (v : Json) : List Char :=
  '"' :: (escList k ++ '"' :: ':' :: jchars v)

theorem digitChar_isDigit (n : Nat) : (digitChar n).isDigit = true := by
  unfold digitChar
  split <;> decide

theorem digitVal_digitChar (n : Nat) (h : n < 10) : digitVal (digitChar n) = n := by
  interval_cases n <;> decide

theorem natToDigitsF_all_digits :
    ∀ fuel n, ∀ c ∈ natToDigitsF fuel n, c.isDigit = true := by
  intro fuel
  induction fuel with
  | zero => intro n c hc; simp [natToDigitsF] at hc
  | succ f IH =>
    intro n c hc
    rw [natToDigitsF] at hc
    by_cases h10 : n < 10
    · simp [h10] at hc
      simp [hc, digitChar_isDigit]
    · simp [h10] at hc
      rcases hc with hc | hc
      · exact IH _ c hc
      · simp [hc, digitChar_isDigit]

theorem natToDigitsF_ne_nil (fuel n : Nat) (h : 0 < fuel) : natToDigitsF fuel n ≠ [] := by
  cases fuel with
  | zero => omega
  | succ f =>
    rw [natToDigitsF]
    split <;> simp

theorem foldl_natToDigitsF :
    ∀ fuel n a, n < fuel →
      List.foldl (fun a c => a * 10 + digitVal c) a (natToDigitsF fuel n) =
        a * 10 ^ (natToDigitsF fuel n).length + n := by
  intro fuel
  induction fuel with
  | zero => intro n a h; omega
  | succ f IH =>
    intro n a h
    rw [natToDigitsF]
    by_cases h10 : n < 10
    · simp [h10, digitVal_digitChar n h10]
    · have hn : n / 10 < f := by omega
      simp only [h10, if_false, List.foldl_append, List.length_append, List.length_singleton]
      rw [IH (n / 10) a hn]
      simp only [List.foldl_cons, List.foldl_nil, digitVal_digitChar (n % 10) (by omega)]
      have hp : 10 ^ ((natToDigitsF f (n / 10)).length + 1) =
          10 ^ (natToDigitsF f (n / 10)).length * 10 := pow_succ 10 _
      rw [hp]
      have hmod : n / 10 * 10 + n % 10 = n := by omega
      ring_nf
      omega

theorem digitsVal_natToDigits (n : Nat) : digitsVal (natToDigits n) = n := by
  have h := foldl_natToDigitsF (n + 1) n 0 (by omega)
  simpa [digitsVal, natToDigits] using h

theorem natToDigits_all_digits (n : Nat) : ∀ c ∈ natToDigits n, c.isDigit = true :=
  natToDigitsF_all_digits (n + 1) n

theorem natToDigits_ne_nil (n : Nat) : natToDigits n ≠ [] :=
  natToDigitsF_ne_nil (n + 1) n (by omega)

theorem natToDigits_head (n : Nat) :
    ∃ d ds, natToDigits n = d :: ds ∧ d.isDigit = true := by
  rcases hl : natToDigits n with _ | ⟨d, ds⟩
  · exact absurd hl (natToDigits_ne_nil n)
  · exact ⟨d, ds, rfl, natToDigits_all_digits n d (by rw [hl]; simp)⟩

theorem takeWhile_digits (xs ys : List Char) (hx : ∀ x ∈ xs, x.isDigit = true)
    (hy : noDigitHead ys) :
    (xs ++ ys).takeWhile (fun c => c.isDigit) = xs ∧
      (xs ++ ys).dropWhile (fun c => c.isDigit) = ys := by
  induction xs with
  | nil =>
    cases ys with
    | nil => simp
    | cons y ys =>
      simp only [noDigitHead] at hy
      simp [List.takeWhile_cons, List.dropWhile_cons, hy]
  | cons x xs IH =>
    have hx0 : x.isDigit = true := hx x (by simp)
    have ⟨ht, hd⟩ := IH (fun c hc => hx c (by simp [hc]))
    simp [List.takeWhile_cons, List.dropWhile_cons, hx0, ht, hd]

theorem parseNat_natToDigits (n : Nat) (rest : List Char) (hrest : noDigitHead rest) :
    parseNat (natToDigits n ++ rest) = some (n, rest) := by
  have ⟨ht, hd⟩ := takeWhile_digits (natToDigits n) rest (natToDigits_all_digits n) hrest
  unfold parseNat
  simp only [ht, hd, List.isEmpty_iff]
  rw [if_neg (natToDigits_ne_nil n), digitsVal_natToDigits]

theorem hexVal_hexDigitChar (m : Nat) (h : m < 16) : hexVal (hexDigitChar m) = some m := by
  interval_cases m <;> rfl

theorem parseStrBody_escList (s : List Char) :
    ∀ rest, parseStrBody (escList s ++ '"' :: rest) = some (s, rest) := by
  induction s with
  | nil =>
    intro rest
    show parseStrBody ('"' :: rest) = some ([], rest)
    rw [parseStrBody.eq_def]
    simp
  | cons c cs IH =>
    intro rest
    show parseStrBody ((escapeChar c ++ escList cs) ++ '"' :: rest) = some (c :: cs, rest)
    rw [List.append_assoc]
    by_cases h1 : c = '"'
    · subst h1
      show parseStrBody ('\\' :: '"' :: (escList cs ++ '"' :: rest)) = _
      rw [parseStrBody.eq_def]; simp [IH rest]
    by_cases h2 : c = '\\'
    · subst h2
      show parseStrBody ('\\' :: '\\' :: (escList cs ++ '"' :: rest)) = _
      rw [parseStrBody.eq_def]; simp [IH rest]
    by_cases h3 : c = Char.ofNat 8
    · subst h3
      rw [show escapeChar (Char.ofNat 8) = ['\\', 'b'] from rfl]
      rw [List.cons_append, List.cons_append, parseStrBody.eq_def]; simp [IH rest]
    by_cases h4 : c = Char.ofNat 9
    · subst h4
      rw [show escapeChar (Char.ofNat 9) = ['\\', 't'] from rfl]
      rw [List.cons_append, List.cons_append, parseStrBody.eq_def]; simp [IH rest]
    by_cases h5 : c = Char.ofNat 10
    · subst h5
      rw [show escapeChar (Char.ofNat 10) = ['\\', 'n'] from rfl]
      rw [List.cons_append, List.cons_append, parseStrBody.eq_def]; simp [IH rest]
    by_cases h6 : c = Char.ofNat 12
    · subst h6
      rw [show escapeChar (Char.ofNat 12) = ['\\', 'f'] from rfl]
      rw [List.cons_append, List.cons_append, parseStrBody.eq_def]; simp [IH rest]
    by_cases h7 : c = Char.ofNat 13
    · subst h7
      rw [show escapeChar (Char.ofNat 13) = ['\\', 'r'] from rfl]
      rw [List.cons_append, List.cons_append, parseStrBody.eq_def]; simp [IH rest]
    by_cases h8 : c.toNat < 32
    · rw [show escapeChar c =
          '\\' :: 'u' :: '0' :: '0' ::
            hexDigitChar (c.toNat / 16) :: [hexDigitChar (c.toNat % 16)] by
        simp [escapeChar, escU, h1, h2, h3, h4, h5, h6, h7, h8]]
      have hhi : c.toNat / 16 < 16 := by omega
      have hlo : c.toNat % 16 < 16 := by omega
      simp only [List.cons_append]
      rw [parseStrBody.eq_def]
      simp [hexVal_hexDigitChar _ hhi, hexVal_hexDigitChar _ hlo, IH rest,
        show hexVal '0' = some 0 from rfl]
      rw [show c.toNat / 16 * 16 + c.toNat % 16 = c.toNat by omega, Char.ofNat_toNat]
    · rw [show escapeChar c = [c] by simp [escapeChar, h1, h2, h3, h4, h5, h6, h7, h8]]
      rw [List.cons_append, List.nil_append, parseStrBody.eq_def]
      simp [h1, h2, IH rest]

theorem isDigit_not_special {c : Char} (h : c.isDigit = true) :
    c ≠ 'n' ∧ c ≠ 't' ∧ c ≠ 'f' ∧ c ≠ '"' ∧ c ≠ '[' ∧ c ≠ '{' ∧ c ≠ '-' := by
  refine ⟨?_, ?_, ?_, ?_, ?_, ?_, ?_⟩ <;>
    (intro he; subst he; exact absurd h (by decide))

theorem jchars_head (j : Json) :
    ∃ c r, jchars j = c :: r ∧
      (c = 'n' ∨ c = 't' ∨ c = 'f' ∨ c = '"' ∨ c = '[' ∨ c = '{' ∨ c = '-' ∨
        c.isDigit = true) := by
  cases j with
  | null => exact ⟨'n', _, rfl, by tauto⟩
  | bool b => cases b
              · exact ⟨'f', _, rfl, by tauto⟩
              · exact ⟨'t', _, rfl, by tauto⟩
  | num n =>
    rw [show jchars (Json.num n) = intChars n from rfl]
    unfold intChars
    by_cases hn : n < 0
    · refine ⟨'-', natToDigits n.natAbs, ?_, by tauto⟩
      rw [if_pos hn]
    · obtain ⟨d, ds, hd, hdig⟩ := natToDigits_head n.toNat
      refine ⟨d, ds, ?_, by tauto⟩
      rw [if_neg hn, hd]
  | str s => exact ⟨'"', _, rfl, by tauto⟩
  | arr xs => exact ⟨'[', _, rfl, by tauto⟩
  | obj m => exact ⟨'{', _, rfl, by tauto⟩

theorem jchars_ne_nil (j : Json) : jchars j ≠ [] := by
  obtain ⟨c, r, hj, _⟩ := jchars_head j
  simp [hj]

theorem headIs_jchars_append (j : Json) (l : List Char) :
    headIs ']' (jchars j ++ l) = false ∧ headIs '}' (jchars j ++ l) = false := by
  obtain ⟨c, r, hj, hc⟩ := jchars_head j
  rw [hj]
  simp only [List.cons_append, headIs]
  constructor <;>
    (simp only [decide_eq_false_iff_not]; intro he; subst he;
     rcases hc with h | h | h | h | h | h | h | h <;> simp_all)

theorem noDigitHead_arrTail (t : JsonList) (l : List Char) :
    noDigitHead (arrTailChars t ++ l) := by
  cases t <;> simp [arrTailChars, noDigitHead]

theorem noDigitHead_objTail (t : JsonMembers) (l : List Char) :
    noDigitHead (objTailChars t ++ l) := by
  cases t <;> simp [objTailChars, noDigitHead]

theorem nat_max_le_parts {a b c : Nat} (h : Nat.max a b ≤ c) : a ≤ c ∧ b ≤ c :=
  ⟨le_trans (Nat.le_max_left a b) h, le_trans (Nat.le_max_right a b) h⟩

theorem parse_roundtrip : ∀ fuel : Nat,
    (∀ j rest, jfuel j ≤ fuel → noDigitHead rest →
      parseVal fuel (jchars j ++ rest) = some (j, rest)) ∧
    (∀ k v rest, 1 + jfuel v ≤ fuel → noDigitHead rest →
      parseMember fuel (memberChars k v ++ rest) = some ((k, v), rest)) ∧
    (∀ xs rest, lfuel xs ≤ fuel →
      parseArrTail fuel (arrTailChars xs ++ rest) = some (xs, rest)) ∧
    (∀ m rest, mfuel m ≤ fuel →
      parseMemTail fuel (objTailChars m ++ rest) = some (m, rest)) := by
  intro fuel
  induction fuel with
  | zero =>
    refine ⟨?_, ?_, ?_, ?_⟩
    · intro j rest hf _; cases j <;> simp [jfuel] at hf
    · intro k v rest hf _; omega
    · intro xs rest hf; cases xs <;> simp [lfuel] at hf
    · intro m rest hf; cases m <;> simp [mfuel] at hf
  | succ f IH =>
    obtain ⟨IHval, IHmem, IHarr, IHmems⟩ := IH
    refine ⟨?_, ?_, ?_, ?_⟩
    · -- parseVal reads back any serialized value
      intro j rest hf hrest
      cases j with
      | null => rfl
      | bool b => cases b <;> rfl
      | num n =>
        by_cases hn : n < 0
        · have hj : jchars (Json.num n) = '-' :: natToDigits n.natAbs := by
            rw [show jchars (Json.num n) = intChars n from rfl]
            unfold intChars
            rw [if_pos hn]
          rw [hj, List.cons_append, parseVal]
          simp [parseNat_natToDigits n.natAbs rest hrest]
          rw [abs_of_nonpos (by omega : n ≤ 0)]
          simp
        · have hj : jchars (Json.num n) = natToDigits n.toNat := by
            rw [show jchars (Json.num n) = intChars n from rfl]
            unfold intChars
            rw [if_neg hn]
          obtain ⟨d, ds, hd, hdig⟩ := natToDigits_head n.toNat
          obtain ⟨p1, p2, p3, p4, p5, p6, p7⟩ := isDigit_not_special hdig
          rw [hj, hd, List.cons_append, parseVal]
          rw [if_neg p1, if_neg p2, if_neg p3, if_neg p4, if_neg p5, if_neg p6, if_neg p7,
            if_pos hdig]
          rw [show d :: (ds ++ rest) = (d :: ds) ++ rest from rfl, ← hd]
          have hv : ((n.toNat : Int)) = n := by omega
          simp [parseNat_natToDigits n.toNat rest hrest, hv]
      | str s =>
        rw [show jchars (Json.str s) ++ rest = '"' :: (escList s ++ '"' :: rest) by
          simp [jchars]]
        rw [parseVal]
        simp [parseStrBody_escList s rest]
      | arr xs =>
        cases xs with
        | nil => rfl
        | cons h t =>
          simp only [jfuel, lfuel] at hf
          obtain ⟨hjh, hlt⟩ := nat_max_le_parts
            (show Nat.max (jfuel h) (lfuel t) ≤ f by omega)
          rw [show jchars (Json.arr (JsonList.cons h t)) ++ rest =
              '[' :: (jchars h ++ (arrTailChars t ++ rest)) by
            simp [jchars, arrHeadChars]]
          rw [parseVal]
          have hne := headIs_jchars_append h (arrTailChars t ++ rest)
          simp only [hne.1, if_false, if_true, Bool.false_eq_true]
          rw [IHval h _ hjh (noDigitHead_arrTail t rest)]
          simp [IHarr t rest hlt]
      | obj m =>
        cases m with
        | nil => rfl
        | cons k v t =>
          simp only [jfuel, mfuel] at hf
          obtain ⟨hjv, hmt⟩ := nat_max_le_parts
            (show Nat.max (1 + jfuel v) (mfuel t) ≤ f by omega)
          rw [show jchars (Json.obj (JsonMembers.cons k v t)) ++ rest =
              '{' :: (memberChars k v ++ (objTailChars t ++ rest)) by
            simp [jchars, objHeadChars, memberChars]]
          rw [parseVal]
          have hne : headIs '}' (memberChars k v ++ (objTailChars t ++ rest)) = false := rfl
          simp only [hne, Bool.false_eq_true, if_false, if_true]
          rw [IHmem k v _ hjv (noDigitHead_objTail t rest)]
          simp [IHmems t rest hmt]
    · -- parseMember reads back one serialized member
      intro k v rest hf hrest
      rw [show memberChars k v ++ rest = '"' :: (escList k ++ '"' :: (':' :: (jchars v ++ rest))) by
        simp [memberChars]]
      rw [parseMember]
      simp only [if_true]
      rw [parseStrBody_escList k (':' :: (jchars v ++ rest))]
      simp [IHval v rest (by omega) hrest]
    · -- parseArrTail reads back a serialized array continuation
      intro xs rest hf
      cases xs with
      | nil => rfl
      | cons h t =>
        simp only [lfuel] at hf
        obtain ⟨hjh, hlt⟩ := nat_max_le_parts
          (show Nat.max (jfuel h) (lfuel t) ≤ f by omega)
        rw [show arrTailChars (JsonList.cons h t) ++ rest =
            ',' :: (jchars h ++ (arrTailChars t ++ rest)) by
          simp [arrTailChars]]
        rw [parseArrTail]
        rw [IHval h _ hjh (noDigitHead_arrTail t rest)]
        simp [IHarr t rest hlt]
    · -- parseMemTail reads back a serialized object continuation
      intro m rest hf
      cases m with
      | nil => rfl
      | cons k v t =>
        simp only [mfuel] at hf
        obtain ⟨hjv, hmt⟩ := nat_max_le_parts
          (show Nat.max (1 + jfuel v) (mfuel t) ≤ f by omega)
        rw [show objTailChars (JsonMembers.cons k v t) ++ rest =
            ',' :: (memberChars k v ++ (objTailChars t ++ rest)) by
          simp [objTailChars, memberChars]]
        rw [parseMemTail]
        rw [IHmem k v _ hjv (noDigitHead_objTail t rest)]
        simp [IHmems t rest hmt]

mutual
theorem jfuel_le_len : ∀ j : Json, jfuel j ≤ (jchars j).length
  | .null => by simp [jfuel, jchars]
  | .bool b => by cases b <;> simp [jfuel, jchars]
  | .num n => by
    have h : jchars (Json.num n) ≠ [] := jchars_ne_nil (Json.num n)
    have h2 : 0 < (jchars (Json.num n)).length := List.length_pos.mpr h
    simp only [jfuel]
    omega
  | .str s => by simp [jfuel, jchars]
  | .arr .nil => by simp [jfuel, lfuel, jchars, arrHeadChars]
  | .arr (.cons h t) => by
    have h1 := jfuel_le_len h
    have h2 := lfuel_le_len t
    have h3 : 0 < (jchars h).length := List.length_pos.mpr (jchars_ne_nil h)
    have h4 : 0 < (arrTailChars t).length := by cases t <;> simp [arrTailChars]
    have hM : Nat.max (jfuel h) (lfuel t) ≤ (jchars h).length + (arrTailChars t).length - 1 :=
      Nat.max_le.mpr ⟨by omega, by omega⟩
    simp only [jfuel, lfuel, jchars, arrHeadChars, List.length_cons, List.length_append]
    omega
  | .obj .nil => by simp [jfuel, mfuel, jchars, objHeadChars]
  | .obj (.cons k v t) => by
    have h1 := jfuel_le_len v
    have h2 := mfuel_le_len t
    have hM : Nat.max (1 + jfuel v) (mfuel t) ≤
        1 + ((jchars v).length + (objTailChars t).length) :=
      Nat.max_le.mpr ⟨by omega, by omega⟩
    simp only [jfuel, mfuel, jchars, objHeadChars, List.length_cons, List.length_append]
    omega
theorem lfuel_le_len : ∀ xs : JsonList, lfuel xs ≤ (arrTailChars xs).length
  | .nil => by simp [lfuel, arrTailChars]
  | .cons h t => by
    have h1 := jfuel_le_len h
    have h2 := lfuel_le_len t
    have hM : Nat.max (jfuel h) (lfuel t) ≤ (jchars h).length + (arrTailChars t).length :=
      Nat.max_le.mpr ⟨by omega, by omega⟩
    simp only [lfuel, arrTailChars, List.length_cons, List.length_append]
    omega
theorem mfuel_le_len : ∀ m : JsonMembers, mfuel m ≤ (objTailChars m).length
  | .nil => by simp [mfuel, objTailChars]
  | .cons k v t => by
    have h1 := jfuel_le_len v
    have h2 := mfuel_le_len t
    have hM : Nat.max (1 + jfuel v) (mfuel t) ≤
        1 + ((jchars v).length + (objTailChars t).length) :=
      Nat.max_le.mpr ⟨by omega, by omega⟩
    simp only [mfuel, objTailChars, List.length_cons, List.length_append]
    omega
end

/-- The JSON builtins round-trip: parsing a serialized value gives it back.
This is the JavaScript identity `JSON.parse(JSON.stringify(d)) = d` on which
the adapter's save/load cycle relies. -/
theorem JSONparse_JSONstringify (j : Json) : JSONparse (JSONstringify j) = some j := by
  unfold JSONparse JSONstringify
  have h := (parse_roundtrip (jchars j).length).1 j [] (jfuel_le_len j) trivial
  rw [List.append_nil] at h
  rw [h]

/-- Host-visible effects of the adapter's handlers: log lines, the explicit
authenticate call, triggering the load (`getData()`), and the three calls
into the host brain. -/
inductive Action where
  | logInfo (msg : String)
  | logDebug (msg : String)
  | logError (msg : String)
  | clientAuth (password : Option String)
  | getDataCall
  | mergeData (d : Json)
  | emitConnected
  | setAutoSave (b : Bool)
  deriving DecidableEq

/-- Failures of the load operation: a transport error rethrown by the
callback (`throw err`), or `JSON.parse` throwing on a corrupt record. -/
inductive GetDataErr where
  | redisErr (e : String)
  | jsonParseErr
  deriving DecidableEq

/-- The single Redis key the adapter uses. -/
def getDataKey (pfx : String) : String := pfx ++ ":storage"

/-- The Redis string keyspace. -/
abbrev Store := String → Option (List Char)

/-- The callback of `getData` (redis-brain.js lines 58-72).  `err` is the
error argument of the `client.get` callback and `reply` the stored value
(`none` for a missing key).  JavaScript truthiness makes an empty-string
reply take the initializing branch as well.  A transport error is rethrown
(`Except.error`), so none of the host calls happen on that path. -/
def getDataCallback (pfx : String) (err : Option String) (reply : Option (List Char)) :
    Except GetDataErr (List Action) :=
  match err with
  | some e => Except.error (GetDataErr.redisErr e)
  | none =>
    match reply with
    | some r =>
      if r = [] then
        Except.ok
          [Action.logInfo ("hubot-redis-brain: Initializing new data for " ++ pfx ++ " brain"),
           Action.mergeData (Json.obj JsonMembers.nil), Action.emitConnected,
           Action.setAutoSave true]
      else
        match JSONparse r with
        | some j =>
          Except.ok
            [Action.logInfo ("hubot-redis-brain: Data for " ++ pfx ++ " brain retrieved from Redis"),
             Action.mergeData j, Action.emitConnected, Action.setAutoSave true]
        | none => Except.error GetDataErr.jsonParseErr
    | none =>
      Except.ok
        [Action.logInfo ("hubot-redis-brain: Initializing new data for " ++ pfx ++ " brain"),
         Action.mergeData (Json.obj JsonMembers.nil), Action.emitConnected,
         Action.setAutoSave true]

/-- A load against a store state that answers without a transport error. -/
def load (pfx : String) (store : Store) : Except GetDataErr (List Action) :=
  getDataCallback pfx none (store (getDataKey pfx))

/-- The `save` event handler (lines 98-103): a falsy payload is replaced by
`{}`, then `JSON.stringify(data)` is written to `{prefix}:storage`. -/
def saveHandler (pfx : String) (data : Option Json) (store : Store) : Store :=
  fun k =>
    if k = getDataKey pfx then some (JSONstringify (data.getD (Json.obj JsonMembers.nil)))
    else store k

/-- JavaScript `String.prototype.split` with a single-character separator. -/
def jsSplitChar (sep : Char) : List Char → List (List Char)
  | [] => [[]]
  | c :: r =>
    if c = sep then [] :: jsSplitChar sep r
    else
      match jsSplitChar sep r with
      | [] => [[c]]
      | s :: ss => (c :: s) :: ss

/-- The password the adapter sends: `info.auth.split(':')[1]` (line 75);
`none` models JavaScript `undefined` when the auth part has no colon. -/
def authPassword (auth : String) : Option String :=
  ((jsSplitChar ':' auth.data)[1]?).map (fun l => String.mk l)

/-- JavaScript truthiness of a possibly-undefined string: defined and
nonempty. -/
def truthy : Option String → Bool
  | none => false
  | some s => !(s == "")

/-- The components of Node's legacy `url.parse` result that the adapter
reads; `none` models a `null`/`undefined` field. -/
structure UrlInfo where
  auth : Option String
  hostname : Option String
  port : Option String
  pathname : Option String
  query : Option String
  deriving DecidableEq

/-- Node's `info.path`: pathname plus search string. -/
def UrlInfo.path (i : UrlInfo) : Option String :=
  match i.pathname, i.query with
  | none, none => none
  | some p, none => some p
  | none, some q => some ("?" ++ q)
  | some p, some q => some (p ++ "?" ++ q)

/-- The explicit authentication step (lines 74-83): performed exactly when
the parsed URL carries a truthy auth part, with `auth.split(':')[1]` as the
password. -/
def authStep (info : UrlInfo) : List Action :=
  if truthy info.auth then [Action.clientAuth (authPassword (info.auth.getD ""))] else []

/-- The `client.auth` callback (lines 76-82): on error only a log line, and
the load is not triggered; on success a log line and `getData()`. -/
def onAuthResult (err : Option String) : List Action :=
  match err with
  | some _ => [Action.logError "hubot-redis-brain: Failed to authenticate to Redis"]
  | none =>
    [Action.logInfo "hubot-redis-brain: Successfully authenticated to Redis",
     Action.getDataCall]

/-- The `connect` event handler (lines 93-96): a debug line, and `getData()`
only when the URL carries no auth part. -/
def onConnect (info : UrlInfo) : List Action :=
  Action.logDebug "hubot-redis-brain: Successfully connected to Redis" ::
    (if truthy info.auth then [] else [Action.getDataCall])

/-- Substring test, the model of `/ECONNREFUSED/.test(msg)`. -/
def hasSubstr (pat : List Char) : List Char → Bool
  | [] => pat.isPrefixOf []
  | c :: r => pat.isPrefixOf (c :: r) || hasSubstr pat r

/-- The `error` event handler (lines 85-91): a connection-refused error is
silently ignored, anything else logs `err.stack` at error level.  The
handler neither rethrows nor retries. -/
def onClientError (msg stack : String) : List Action :=
  if hasSubstr "ECONNREFUSED".data msg.data then [] else [Action.logError stack]

/-- The environment variables the adapter reads; `none` models an unset
variable. -/
structure Env where
  REDISTOGO_URL : Option String
  REDISCLOUD_URL : Option String
  BOXEN_REDIS_URL : Option String
  REDIS_URL : Option String
  CF_REDIS_SERVICE : Option String
  CF_REDIS_INSTANCE_NAME : Option String
  REDIS_NO_CHECK : Option String
  VCAP_SERVICES : Option String

/-- `getRedisEnv` (lines 108-128): returns the NAME of the first truthy URL
variable, or the sentinel name `CF_REDIS_INSTANCE_NAME` when only the Cloud
Foundry service variable is set, or nothing. -/
def getRedisEnv (env : Env) : Option String :=
  if truthy env.REDISTOGO_URL then some "REDISTOGO_URL"
  else if truthy env.REDISCLOUD_URL then some "REDISCLOUD_URL"
  else if truthy env.BOXEN_REDIS_URL then some "BOXEN_REDIS_URL"
  else if truthy env.REDIS_URL then some "REDIS_URL"
  else if truthy env.CF_REDIS_SERVICE then some "CF_REDIS_INSTANCE_NAME"
  else none

/-- `process.env[name]` for the names `getRedisEnv` can return. -/
def envLookup (env : Env) (name : String) : Option String :=
  if name = "REDISTOGO_URL" then env.REDISTOGO_URL
  else if name = "REDISCLOUD_URL" then env.REDISCLOUD_URL
  else if name = "BOXEN_REDIS_URL" then env.BOXEN_REDIS_URL
  else if name = "REDIS_URL" then env.REDIS_URL
  else none

/-- Property lookup on a parsed JSON object, as JavaScript sees it after
`JSON.parse`: a duplicated key is overwritten by its later occurrence, so
the LAST textual occurrence wins. -/
def memLookup : JsonMembers → List Char → Option Json
  | JsonMembers.nil, _ => none
  | JsonMembers.cons k v t, key =>
    match memLookup t key with
    | some r => some r
    | none => if k = key then some v else none

/-- JavaScript property access `j[key]`; `none` models `undefined`
(non-objects have none of the properties the adapter asks for). -/
def jsIndex (j : Json) (key : String) : Option Json :=
  match j with
  | Json.obj m => memLookup m key.data
  | _ => none

/- JavaScript string coercion of a value, as performed by the `+`
concatenation in `buildCloudFoundryURL`: arrays join their elements with
commas (`null` joining as the empty string), objects print as
`[object Object]`. -/
mutual
def arrJoinChars : JsonList → List Char
  | .nil => []
  | .cons h .nil => elemToChars h
  | .cons h t => elemToChars h ++ ',' :: arrJoinChars t
def elemToChars : Json → List Char
  | .null => []
  | .bool true => "true".data
  | .bool false => "false".data
  | .num n => intChars n
  | .str s => s
  | .arr xs => arrJoinChars xs
  | .obj _ => "[object Object]".data
end

/-- JavaScript `String(x)` for a possibly-undefined JSON value, as the `+`
operator coerces it. -/
def jsToString : Option Json → String
  | none => "undefined"
  | some Json.null => "null"
  | some (Json.bool true) => "true"
  | some (Json.bool false) => "false"
  | some (Json.num n) => String.mk (intChars n)
  | some (Json.str s) => String.mk s
  | some (Json.arr xs) => String.mk (arrJoinChars xs)
  | some (Json.obj _) => "[object Object]"

/-- Ways `buildCloudFoundryURL` can throw: each constructor marks the
JavaScript statement that raises (`for-of` over `undefined`/a non-iterable,
or a property access on `undefined`). -/
inductive CfError where
  | noServices
  | noService
  | notIterable
  | noInstance
  | noCredentials
  deriving DecidableEq

/-- JavaScript strict equality `instance['name'] === env.CF_REDIS_INSTANCE_NAME`:
a string field equal to the set variable matches; a missing field matches an
unset variable (`undefined === undefined`); any other combination is false. -/
def instNameMatches (inst : Json) (nameVal : Option String) : Bool :=
  match jsIndex inst "name", nameVal with
  | some (Json.str s), some t => s = t.data
  | none, none => true
  | _, _ => false

/-- The host the credentials name: `hostname` if present, else `host`
(lines 144-149). -/
def credsHost (creds : Json) : Option Json :=
  match jsIndex creds "hostname" with
  | none => jsIndex creds "host"
  | some h => some h

/-- The `for-of` search for the configured instance (lines 137-142). -/
def findInstance (xs : JsonList) (nameVal : Option String) : Option Json :=
  match xs with
  | .nil => none
  | .cons inst t => if instNameMatches inst nameVal then some inst else findInstance t nameVal

/-- `buildCloudFoundryURL` (lines 130-155).  The `try`/`catch` around
`JSON.parse` leaves the raw (or undefined) value in `services` on a parse
failure, whose lookup then yields `undefined` and the `for-of` throws: those
paths are the `Except.error` results, none of them caught locally. -/
def buildCloudFoundryURL (env : Env) : Except CfError String :=
  match env.VCAP_SERVICES with
  | none => Except.error CfError.noServices
  | some vs =>
    match JSONparse vs.data with
    | none => Except.error CfError.noServices
    | some services =>
      match jsIndex services ((env.CF_REDIS_SERVICE).getD "undefined") with
      | none => Except.error CfError.noService
      | some svc =>
        match svc with
        | Json.arr xs =>
          match findInstance xs env.CF_REDIS_INSTANCE_NAME with
          | none => Except.error CfError.noInstance
          | some inst =>
            match jsIndex inst "credentials" with
            | none => Except.error CfError.noCredentials
            | some creds =>
              Except.ok ("redis://:" ++ jsToString (jsIndex creds "password") ++ "@" ++
                jsToString (credsHost creds) ++ ":" ++ jsToString (jsIndex creds "port") ++
                "/" ++ (env.CF_REDIS_INSTANCE_NAME).getD "undefined")
        | _ => Except.error CfError.notIterable

/-- URL resolution in the module body (lines 24-37): the variable named by
`getRedisEnv` is read back (the sentinel taking the Cloud Foundry path), and
with no variable at all the hardcoded local default is used. -/
def resolveRedisUrl (env : Env) : Except CfError String :=
  match getRedisEnv env with
  | some name =>
    if name = "CF_REDIS_INSTANCE_NAME" then buildCloudFoundryURL env
    else Except.ok ((envLookup env name).getD "")
  | none => Except.ok "redis://localhost:6379"

/-- Content after `scheme://`, or `none` when the URL has no `://`. -/
def afterScheme (cs : List Char) : Option (List Char) :=
  match cs.dropWhile (fun c => c != ':') with
  | ':' :: '/' :: '/' :: r => some r
  | _ => none

/-- Part of `cs` strictly before the last occurrence of `sep`. -/
def beforeLast (sep : Char) (cs : List Char) : List Char :=
  ((cs.reverse.dropWhile (fun c => c != sep)).tail).reverse

/-- Part of `cs` strictly after the last occurrence of `sep`. -/
def afterLast (sep : Char) (cs : List Char) : List Char :=
  (cs.reverse.takeWhile (fun c => c != sep)).reverse

/-- Model of Node's legacy `url.parse` restricted to the `scheme://`-URLs
the adapter resolves: the authority runs to the first `/`, `?` or `#`; the
userinfo is everything before its last `@`; a trailing `:digits` is the
port; the path runs to `?`, the query to `#`.  An empty authority gives
`hostname = some ""`, the condition the adapter tests for the UNIX-socket
form.  Percent-decoding and hostname case-folding are not modelled. -/
def urlParse (url : String) : UrlInfo :=
  match afterScheme url.data with
  | none => { auth := none, hostname := none, port := none, pathname := none, query := none }
  | some r =>
    let isAuthorityChar := fun (c : Char) => c != '/' && c != '?' && c != '#'
    let authority := r.takeWhile isAuthorityChar
    let restPath := r.dropWhile isAuthorityChar
    let hasAt := authority.contains '@'
    let auth := if hasAt then some (String.mk (beforeLast '@' authority)) else none
    let host := if hasAt then afterLast '@' authority else authority
    let revHost := host.reverse
    let revDigits := revHost.takeWhile (fun c => c.isDigit)
    let afterDigits := revHost.dropWhile (fun c => c.isDigit)
    let hasPort := headIs ':' afterDigits
    let port := if hasPort then some (String.mk revDigits.reverse) else none
    let hostname := if hasPort then String.mk afterDigits.tail.reverse else String.mk host
    let beforeHash := restPath.takeWhile (fun c => c != '#')
    let pn := beforeHash.takeWhile (fun c => c != '?')
    let hasQ := beforeHash.contains '?'
    let q :=
      if hasQ then some (String.mk ((beforeHash.dropWhile (fun c => c != '?')).tail)) else none
    { auth := auth
      hostname := some hostname
      port := port
      pathname := if pn = [] then none else some (String.mk pn)
      query := q }

/-- The two ways the adapter constructs its client (lines 45-52). -/
inductive ClientCtor where
  | socket (path : Option String)
  | hostPort (port : Option String) (host : Option String) (noReadyCheck : Bool)
  deriving DecidableEq

/-- JavaScript `x || dflt` on strings. -/
def jsOr (s dflt : String) : String := if s = "" then dflt else s

/-- Remove the first occurrence of `sep`. -/
def removeFirstChar (sep : Char) : List Char → List Char
  | [] => []
  | c :: r => if c = sep then r else c :: removeFirstChar sep r

/-- JavaScript `s.replace('/', '')`: only the FIRST slash is removed. -/
def replaceFirstSlash (s : String) : String := String.mk (removeFirstChar '/' s.data)

/-- Client construction and prefix selection (lines 43-53): an empty parsed
hostname selects the UNIX-socket form (socket path = pathname, prefix =
query), otherwise host/port (prefix = path without its leading slash), the
prefix defaulting to `hubot` whenever the candidate is empty or absent.
The ready check is skipped iff the URL carries truthy credentials or
`REDIS_NO_CHECK` is truthy. -/
def clientAndPrefix (info : UrlInfo) (redisNoCheck : Bool) : ClientCtor × String :=
  if info.hostname = some "" then
    (ClientCtor.socket info.pathname, jsOr ((info.query).getD "") "hubot")
  else
    (ClientCtor.hostPort info.port info.hostname (truthy info.auth || redisNoCheck),
      jsOr (replaceFirstSlash ((UrlInfo.path info).getD "")) "hubot")

/-- State of the host-plus-adapter system for the auto-save gating claim:
the brain's auto-save flag, whether `connected` has been emitted, the Redis
keyspace, and a count of save-event-triggered writes. -/
structure SysState where
  autoSave : Bool
  connected : Bool
  store : Store
  saveWrites : Nat

/-- Effect of one host call on the observable state. -/
def applyAction (s : SysState) (a : Action) : SysState :=
  match a with
  | Action.emitConnected => { s with connected := true }
  | Action.setAutoSave b => { s with autoSave := b }
  | _ => s

/-- Effect of a handler's call sequence. -/
def applyActions (s : SysState) (acts : List Action) : SysState := acts.foldl applyAction s

/-- Events after startup: the load's callback runs (successfully or
throwing), a transport error aborts a load with no host call, or the host's
auto-save timer fires - which hubot only runs while auto-save is enabled -
emitting a `save` event that the handler turns into a store write. -/
inductive AdapterStep (pfx : String) : SysState → SysState → Prop where
  | loadOk : ∀ s acts, load pfx s.store = Except.ok acts →
      AdapterStep pfx s (applyActions s acts)
  | loadErr : ∀ s e, load pfx s.store = Except.error e → AdapterStep pfx s s
  | loadTransportErr : ∀ s, AdapterStep pfx s s
  | autoSaveTick : ∀ s d, s.autoSave = true →
      AdapterStep pfx s
        { s with store := saveHandler pfx d s.store, saveWrites := s.saveWrites + 1 }

/-- The adapter's startup state: auto-save disabled (the module body calls
`robot.brain.setAutoSave(false)`, line 55, before any connection, auth or
load activity), nothing connected, no save-triggered write yet. -/
def initState (store0 : Store) : SysState :=
  { autoSave := false, connected := false, store := store0, saveWrites := 0 }

/-- The empty keyspace. -/
def emptyStore : Store := fun _ => none

/-- States reachable from adapter startup. -/
inductive Reachable (pfx : String) (store0 : Store) : SysState → Prop where
  | init : Reachable pfx store0 (initState store0)
  | step : ∀ s s', Reachable pfx store0 s → AdapterStep pfx s s' → Reachable pfx store0 s'

/-- The action list of a successful load of a non-empty, well-formed record. -/
theorem getDataCallback_some (pfx : String) (r : List Char) (j : Json)
    (hne : r ≠ []) (hp : JSONparse r = some j) :
    getDataCallback pfx none (some r) =
      Except.ok
        [Action.logInfo ("hubot-redis-brain: Data for " ++ pfx ++ " brain retrieved from Redis"),
         Action.mergeData j, Action.emitConnected, Action.setAutoSave true] := by
  simp only [getDataCallback]
  rw [if_neg hne, hp]

/-- C1: for every JSON-serializable snapshot `d`, handling a `save` event
with payload `d` (which writes `JSON.stringify(d)` to `{prefix}:storage`)
and then loading reads that value back, parses it, and merges a snapshot
equal to `d` into the host brain - JSON round-trip fidelity for nested
objects, arrays, numbers, strings, booleans and null. -/
theorem save_then_load_merges_saved_snapshot (pfx : String) (store : Store) (d : Json) :
    load pfx (saveHandler pfx (some d) store) =
      Except.ok
        [Action.logInfo ("hubot-redis-brain: Data for " ++ pfx ++ " brain retrieved from Redis"),
         Action.mergeData d, Action.emitConnected, Action.setAutoSave true] := by
  have h1 : (saveHandler pfx (some d) store) (getDataKey pfx) = some (JSONstringify d) := by
    unfold saveHandler
    simp
  unfold load
  rw [h1]
  exact getDataCallback_some pfx (JSONstringify d) d (jchars_ne_nil d)
    (JSONparse_JSONstringify d)

/-- C1 illustrated on the snapshot `{a:1}` of the spec. -/
example :
    load "hubot" (saveHandler "hubot"
        (some (Json.obj (JsonMembers.cons ['a'] (Json.num 1) JsonMembers.nil)))
        (fun _ => none)) =
      Except.ok
        [Action.logInfo "hubot-redis-brain: Data for hubot brain retrieved from Redis",
         Action.mergeData (Json.obj (JsonMembers.cons ['a'] (Json.num 1) JsonMembers.nil)),
         Action.emitConnected, Action.setAutoSave true] := rfl

/-- C2: the `getData` callback rethrows a transport error (no merge, no
`connected`, no auto-save enabling); with no stored value it merges `{}` and
emits `connected`; with a non-empty stored value it parses it as JSON,
merges the result and emits `connected`; both success paths end by enabling
auto-save. -/
theorem getData_callback_contract (pfx : String) :
    (∀ e reply, getDataCallback pfx (some e) reply =
      Except.error (GetDataErr.redisErr e)) ∧
    (getDataCallback pfx none none =
      Except.ok
        [Action.logInfo ("hubot-redis-brain: Initializing new data for " ++ pfx ++ " brain"),
         Action.mergeData (Json.obj JsonMembers.nil), Action.emitConnected,
         Action.setAutoSave true]) ∧
    (∀ r j, r ≠ [] → JSONparse r = some j →
      getDataCallback pfx none (some r) =
        Except.ok
          [Action.logInfo ("hubot-redis-brain: Data for " ++ pfx ++ " brain retrieved from Redis"),
           Action.mergeData j, Action.emitConnected, Action.setAutoSave true]) := by
  refine ⟨?_, rfl, ?_⟩
  · intro e reply
    rfl
  · intro r j hne hp
    exact getDataCallback_some pfx r j hne hp

/-- C2 witnessed on concrete inputs: an errored get, a first run, and a
stored `{"a":1}`. -/
theorem getData_callback_contract_witness :
    getDataCallback "hubot" (some "boom") (some "\x7b\"a\":1\x7d".data) =
        Except.error (GetDataErr.redisErr "boom") ∧
    getDataCallback "hubot" none (some "\x7b\"a\":1\x7d".data) =
      Except.ok
        [Action.logInfo "hubot-redis-brain: Data for hubot brain retrieved from Redis",
         Action.mergeData (Json.obj (JsonMembers.cons ['a'] (Json.num 1) JsonMembers.nil)),
         Action.emitConnected, Action.setAutoSave true] :=
  ⟨(getData_callback_contract "hubot").1 "boom" _,
   (getData_callback_contract "hubot").2.2 _ _ (by decide) (by rfl)⟩

/-- Any successful load leaves the brain connected with auto-save enabled
(the callback's three possible action lists all end in `emitConnected` and
`setAutoSave true`). -/
theorem applyActions_load (pfx : String) (s : SysState) (acts : List Action)
    (h : load pfx s.store = Except.ok acts) :
    applyActions s acts = { s with connected := true, autoSave := true } := by
  unfold load at h
  rcases hrep : s.store (getDataKey pfx) with _ | r
  · rw [hrep] at h
    simp only [getDataCallback, Except.ok.injEq] at h
    subst h
    rfl
  · rw [hrep] at h
    simp only [getDataCallback] at h
    by_cases hr : r = []
    · rw [if_pos hr] at h
      simp only [Except.ok.injEq] at h
      subst h
      rfl
    · rw [if_neg hr] at h
      rcases hp : JSONparse r with _ | j <;> rw [hp] at h
      · exact absurd h (by simp)
      · simp only [Except.ok.injEq] at h
        subst h
        rfl

/-- C3: in every reachable state, auto-save can only be enabled once the
first load has emitted `connected`, and a save-event-triggered write can
only have happened in a state that had already emitted `connected`.  The
initial state itself (the module body runs `setAutoSave(false)` before any
wiring) has auto-save disabled by construction of `Reachable.init`. -/
theorem autoSave_gating (pfx : String) (store0 : Store) (s : SysState)
    (h : Reachable pfx store0 s) :
    (s.autoSave = true → s.connected = true) ∧
      (0 < s.saveWrites → s.connected = true) := by
  induction h with
  | init => simp [initState]
  | step s s' _ hstep IH =>
    cases hstep with
    | loadOk acts hacts =>
      rw [applyActions_load pfx s acts hacts]
      exact ⟨fun _ => rfl, fun _ => rfl⟩
    | loadErr e hacts => exact IH
    | loadTransportErr => exact IH
    | autoSaveTick d hauto =>
      have hc : s.connected = true := IH.1 hauto
      exact ⟨fun _ => hc, fun _ => hc⟩

/-- C3 witnessed at the initial state of a fresh store. -/
theorem autoSave_gating_witness :
    ((initState emptyStore).autoSave = true → (initState emptyStore).connected = true) ∧
      (0 < (initState emptyStore).saveWrites → (initState emptyStore).connected = true) :=
  autoSave_gating "hubot" emptyStore _ Reachable.init

/-- C4: with truthy inline credentials the adapter issues `client.auth`
with `auth.split(':')[1]` as password, the `connect` handler does NOT
trigger the load, and the load runs only from the auth callback's success
branch; an auth error only logs and does not trigger the load.  Without
credentials no auth call is made and the `connect` handler triggers the
load. -/
theorem auth_gating (info : UrlInfo) (e : String) :
    (truthy info.auth = true →
      authStep info = [Action.clientAuth (authPassword (info.auth.getD ""))] ∧
      onConnect info = [Action.logDebug "hubot-redis-brain: Successfully connected to Redis"]) ∧
    (onAuthResult none =
      [Action.logInfo "hubot-redis-brain: Successfully authenticated to Redis",
       Action.getDataCall]) ∧
    (onAuthResult (some e) =
        [Action.logError "hubot-redis-brain: Failed to authenticate to Redis"] ∧
      Action.getDataCall ∉ onAuthResult (some e)) ∧
    (truthy info.auth = false →
      authStep info = [] ∧
      onConnect info =
        [Action.logDebug "hubot-redis-brain: Successfully connected to Redis",
         Action.getDataCall]) := by
  refine ⟨?_, rfl, ⟨rfl, by simp [onAuthResult]⟩, ?_⟩
  · intro h
    exact ⟨by simp [authStep, h], by simp [onConnect, h]⟩
  · intro h
    exact ⟨by simp [authStep, h], by simp [onConnect, h]⟩

/-- A parsed URL with inline credentials `:pw`, as an example input. -/
def urlInfoPw : UrlInfo :=
  { auth := some ":pw", hostname := some "h", port := some "6379",
    pathname := none, query := none }

/-- A parsed URL without credentials, as an example input. -/
def urlInfoNoAuth : UrlInfo :=
  { auth := none, hostname := some "h", port := some "6379",
    pathname := none, query := none }

/-- C4 witnessed on a URL with credentials `:pw` and one with none. -/
theorem auth_gating_witness :
    (authStep urlInfoPw = [Action.clientAuth (some "pw")] ∧
      onConnect urlInfoPw =
        [Action.logDebug "hubot-redis-brain: Successfully connected to Redis"]) ∧
    (authStep urlInfoNoAuth = [] ∧
      onConnect urlInfoNoAuth =
        [Action.logDebug "hubot-redis-brain: Successfully connected to Redis",
         Action.getDataCall]) := by
  constructor
  · have h := (auth_gating urlInfoPw "x").1 (by decide)
    exact ⟨by rw [h.1]; rfl, h.2⟩
  · exact (auth_gating urlInfoNoAuth "x").2.2.2 (by decide)

/-- C8: a connection error whose message matches `ECONNREFUSED` is
suppressed (no diagnostic at all); any other connection error logs the
stack at error level; in both cases the handler's only possible effect is
that log line - it neither rethrows nor retries. -/
theorem connection_error_suppression (msg stack : String) :
    (hasSubstr "ECONNREFUSED".data msg.data = true → onClientError msg stack = []) ∧
    (hasSubstr "ECONNREFUSED".data msg.data = false →
      onClientError msg stack = [Action.logError stack]) ∧
    (∀ a ∈ onClientError msg stack, a = Action.logError stack) := by
  refine ⟨fun h => by simp [onClientError, h], fun h => by simp [onClientError, h], ?_⟩
  intro a ha
  unfold onClientError at ha
  by_cases h : hasSubstr "ECONNREFUSED".data msg.data
  · rw [if_pos h] at ha
    exact absurd ha (by simp)
  · rw [if_neg h] at ha
    simpa using ha

/-- C8 witnessed on a refused-connection message and an ordinary error. -/
theorem connection_error_suppression_witness :
    onClientError "connect ECONNREFUSED 127.0.0.1:6379" "stack1" = [] ∧
    onClientError "READONLY You can not write" "stack2" = [Action.logError "stack2"] :=
  ⟨(connection_error_suppression "connect ECONNREFUSED 127.0.0.1:6379" "stack1").1 (by decide),
   (connection_error_suppression "READONLY You can not write" "stack2").2.1 (by decide)⟩

theorem jsSplitChar_cons (sep c : Char) (r : List Char) :
    jsSplitChar sep (c :: r) =
      if c = sep then [] :: jsSplitChar sep r
      else
        match jsSplitChar sep r with
        | [] => [[c]]
        | s :: ss => (c :: s) :: ss := rfl

theorem jsSplitChar_no_sep (sep : Char) (cs : List Char) (h : sep ∉ cs) :
    jsSplitChar sep cs = [cs] := by
  induction cs with
  | nil => rfl
  | cons c r IH =>
    have hc : c ≠ sep := fun he => h (by simp [he])
    have hr : sep ∉ r := fun hm => h (by simp [hm])
    rw [jsSplitChar_cons, if_neg hc, IH hr]

theorem jsSplitChar_head (sep : Char) (p : List Char) :
    ∃ tl, jsSplitChar sep p = p.takeWhile (fun c => c != sep) :: tl := by
  induction p with
  | nil => exact ⟨[], rfl⟩
  | cons c r IH =>
    by_cases h : c = sep
    · refine ⟨jsSplitChar sep r, ?_⟩
      rw [jsSplitChar_cons, if_pos h]
      simp [List.takeWhile_cons, h]
    · obtain ⟨tl, htl⟩ := IH
      refine ⟨tl, ?_⟩
      rw [jsSplitChar_cons, if_neg h, htl]
      simp [List.takeWhile_cons, h]

theorem jsSplitChar_append (sep : Char) (u p : List Char) (h : sep ∉ u) :
    jsSplitChar sep (u ++ sep :: p) = u :: jsSplitChar sep p := by
  induction u with
  | nil => simp [jsSplitChar]
  | cons c r IH =>
    have hc : c ≠ sep := fun he => h (by simp [he])
    have hr : sep ∉ r := fun hm => h (by simp [hm])
    simp only [List.cons_append]
    rw [jsSplitChar_cons, if_neg hc, IH hr]

/-- C10: the password the adapter sends to `client.auth` is
`auth.split(':')[1]`, the substring between the first and the second colon.
A password containing a colon is truncated to its part before that colon,
and an auth part with no colon at all yields an `undefined` password. -/
theorem auth_password_truncation (u p a : String) :
    (':' ∉ u.data →
      authPassword (u ++ ":" ++ p) =
        some (String.mk (p.data.takeWhile (fun c => c != ':')))) ∧
    (':' ∉ a.data → authPassword a = none) := by
  constructor
  · intro hu
    unfold authPassword
    have hdata : (u ++ ":" ++ p).data = u.data ++ ':' :: p.data := by
      simp [String.data_append]
    rw [hdata, jsSplitChar_append ':' u.data p.data hu]
    obtain ⟨tl, htl⟩ := jsSplitChar_head ':' p.data
    rw [htl]
    simp
  · intro ha
    unfold authPassword
    rw [jsSplitChar_no_sep ':' a.data ha]
    rfl

/-- C10 witnessed: `user:pa:ss` authenticates with password `pa` (not
`pa:ss`), and colon-free `user` authenticates with an undefined password. -/
theorem auth_password_truncation_witness :
    authPassword ("user" ++ ":" ++ "pa:ss") = some "pa" ∧ authPassword "user" = none := by
  constructor
  · rw [(auth_password_truncation "user" "pa:ss" "user").1 (by decide)]
    decide
  · exact (auth_password_truncation "u" "p" "user").2 (by decide)

/-- C5: connection-target resolution priority.  The first truthy variable
among REDISTOGO_URL, REDISCLOUD_URL, BOXEN_REDIS_URL, REDIS_URL wins (the
fourth conjunct holds whatever CF_REDIS_SERVICE is - the generic variable
beats the platform one); with none of them set a truthy CF_REDIS_SERVICE
selects the Cloud Foundry service-binding path; with nothing set the
hardcoded default is used. -/
theorem env_priority (env : Env) :
    (truthy env.REDISTOGO_URL = true →
      resolveRedisUrl env = Except.ok (env.REDISTOGO_URL.getD "")) ∧
    (truthy env.REDISTOGO_URL = false → truthy env.REDISCLOUD_URL = true →
      resolveRedisUrl env = Except.ok (env.REDISCLOUD_URL.getD "")) ∧
    (truthy env.REDISTOGO_URL = false → truthy env.REDISCLOUD_URL = false →
      truthy env.BOXEN_REDIS_URL = true →
      resolveRedisUrl env = Except.ok (env.BOXEN_REDIS_URL.getD "")) ∧
    (truthy env.REDISTOGO_URL = false → truthy env.REDISCLOUD_URL = false →
      truthy env.BOXEN_REDIS_URL = false → truthy env.REDIS_URL = true →
      resolveRedisUrl env = Except.ok (env.REDIS_URL.getD "")) ∧
    (truthy env.REDISTOGO_URL = false → truthy env.REDISCLOUD_URL = false →
      truthy env.BOXEN_REDIS_URL = false → truthy env.REDIS_URL = false →
      truthy env.CF_REDIS_SERVICE = true →
      resolveRedisUrl env = buildCloudFoundryURL env) ∧
    (truthy env.REDISTOGO_URL = false → truthy env.REDISCLOUD_URL = false →
      truthy env.BOXEN_REDIS_URL = false → truthy env.REDIS_URL = false →
      truthy env.CF_REDIS_SERVICE = false →
      resolveRedisUrl env = Except.ok "redis://localhost:6379") := by
  refine ⟨?_, ?_, ?_, ?_, ?_, ?_⟩
  · intro h1
    simp [resolveRedisUrl, getRedisEnv, envLookup, h1]
  · intro h1 h2
    simp [resolveRedisUrl, getRedisEnv, envLookup, h1, h2]
  · intro h1 h2 h3
    simp [resolveRedisUrl, getRedisEnv, envLookup, h1, h2, h3]
  · intro h1 h2 h3 h4
    simp [resolveRedisUrl, getRedisEnv, envLookup, h1, h2, h3, h4]
  · intro h1 h2 h3 h4 h5
    simp [resolveRedisUrl, getRedisEnv, h1, h2, h3, h4, h5]
  · intro h1 h2 h3 h4 h5
    simp [resolveRedisUrl, getRedisEnv, h1, h2, h3, h4, h5]

/-- An environment with both a generic URL variable and the platform
service variable set. -/
def envBoth : Env :=
  { REDISTOGO_URL := none, REDISCLOUD_URL := none, BOXEN_REDIS_URL := none,
    REDIS_URL := some "redis://generic:1234", CF_REDIS_SERVICE := some "p-redis",
    CF_REDIS_INSTANCE_NAME := some "mybrain", REDIS_NO_CHECK := none,
    VCAP_SERVICES := none }

/-- C5 witnessed: with both REDIS_URL and CF_REDIS_SERVICE set, the generic
URL variable wins. -/
theorem env_priority_witness : resolveRedisUrl envBoth = Except.ok "redis://generic:1234" := by
  have h := (env_priority envBoth).2.2.2.1 (by decide) (by decide) (by decide) (by decide)
  simpa using h

/-- C6: an empty parsed hostname selects the UNIX-socket form - the client
gets the pathname as socket path and the query string becomes the prefix -
otherwise the host/port form is used and the prefix is the path with its
leading slash removed; in both forms a missing or empty candidate defaults
the prefix to `hubot`.  Concretely: `redis://localhost:6379` gives prefix
`hubot` and no credential, `redis://h:6379/myprefix` gives `myprefix`, and
`redis:///tmp/redis.sock?myprefix` gives socket path `/tmp/redis.sock` with
prefix `myprefix`. -/
theorem url_forms (info : UrlInfo) (rnc : Bool) :
    (info.hostname = some "" →
      (clientAndPrefix info rnc).1 = ClientCtor.socket info.pathname ∧
      (clientAndPrefix info rnc).2 = jsOr ((info.query).getD "") "hubot" ∧
      (truthy info.query = false → (clientAndPrefix info rnc).2 = "hubot")) ∧
    (info.hostname ≠ some "" →
      (clientAndPrefix info rnc).1 =
        ClientCtor.hostPort info.port info.hostname (truthy info.auth || rnc) ∧
      (clientAndPrefix info rnc).2 =
        jsOr (replaceFirstSlash ((UrlInfo.path info).getD "")) "hubot" ∧
      (UrlInfo.path info = none → (clientAndPrefix info rnc).2 = "hubot")) ∧
    clientAndPrefix (urlParse "redis://localhost:6379") false =
      (ClientCtor.hostPort (some "6379") (some "localhost") false, "hubot") ∧
    (urlParse "redis://localhost:6379").auth = none ∧
    (clientAndPrefix (urlParse "redis://h:6379/myprefix") false).2 = "myprefix" ∧
    clientAndPrefix (urlParse "redis:///tmp/redis.sock?myprefix") false =
      (ClientCtor.socket (some "/tmp/redis.sock"), "myprefix") := by
  refine ⟨?_, ?_, by decide, by decide, by decide, by decide⟩
  · intro h
    unfold clientAndPrefix
    rw [if_pos h]
    refine ⟨rfl, rfl, ?_⟩
    intro hq
    rcases hq2 : info.query with _ | q
    · rfl
    · rw [hq2] at hq
      simp [truthy] at hq
      simp [hq, jsOr]
  · intro h
    unfold clientAndPrefix
    rw [if_neg h]
    refine ⟨rfl, rfl, ?_⟩
    intro hp
    rw [hp]
    rfl

/-- C6 witnessed on the socket-form URL of the spec. -/
theorem url_forms_witness :
    (clientAndPrefix (urlParse "redis:///tmp/redis.sock?myprefix") false).1 =
      ClientCtor.socket (some "/tmp/redis.sock") := by
  have h := ((url_forms (urlParse "redis:///tmp/redis.sock?myprefix") false).1 (by decide)).1
  rw [h]
  decide

/-- C9: the client is built on the UNIX socket path when the socket form
applies; otherwise on host and port, and `no_ready_check` is passed exactly
when the URL carries truthy inline credentials or REDIS_NO_CHECK is truthy. -/
theorem ready_check_condition (info : UrlInfo) (rnc : Bool) :
    (info.hostname = some "" →
      (clientAndPrefix info rnc).1 = ClientCtor.socket info.pathname) ∧
    (info.hostname ≠ some "" →
      (clientAndPrefix info rnc).1 =
        ClientCtor.hostPort info.port info.hostname (truthy info.auth || rnc) ∧
      ((truthy info.auth || rnc) = true ↔ (truthy info.auth = true ∨ rnc = true))) := by
  constructor
  · intro h
    unfold clientAndPrefix
    rw [if_pos h]
  · intro h
    unfold clientAndPrefix
    rw [if_neg h]
    exact ⟨rfl, by simp⟩

/-- C9 witnessed: credentials alone, the flag alone, and neither. -/
theorem ready_check_condition_witness :
    (clientAndPrefix urlInfoPw false).1 = ClientCtor.hostPort (some "6379") (some "h") true ∧
    (clientAndPrefix urlInfoNoAuth true).1 = ClientCtor.hostPort (some "6379") (some "h") true ∧
    (clientAndPrefix urlInfoNoAuth false).1 =
      ClientCtor.hostPort (some "6379") (some "h") false := by
  refine ⟨?_, ?_, ?_⟩
  · rw [((ready_check_condition urlInfoPw false).2 (by decide)).1]
    decide
  · rw [((ready_check_condition urlInfoNoAuth true).2 (by decide)).1]
    decide
  · rw [((ready_check_condition urlInfoNoAuth false).2 (by decide)).1]
    decide

/-- C7: on the Cloud Foundry path the descriptor is parsed as JSON, the
named service is looked up, the instance with the configured name is
selected, the host comes from the credentials' `hostname` field if present
and `host` otherwise, and the result is exactly
`redis://:{password}@{host}:{port}/{instance-name}`.  An absent service,
absent instance, or missing credentials makes the resolution throw
(an `Except.error` that nothing catches locally). -/
theorem cloudfoundry_url (env : Env) (vs svcName instName : String) (m : JsonMembers)
    (xs : JsonList) (inst creds : Json) :
    (env.VCAP_SERVICES = some vs → env.CF_REDIS_SERVICE = some svcName →
      env.CF_REDIS_INSTANCE_NAME = some instName →
      JSONparse vs.data = some (Json.obj m) →
      jsIndex (Json.obj m) svcName = some (Json.arr xs) →
      findInstance xs (some instName) = some inst →
      jsIndex inst "credentials" = some creds →
      buildCloudFoundryURL env =
        Except.ok ("redis://:" ++ jsToString (jsIndex creds "password") ++ "@" ++
          jsToString (credsHost creds) ++ ":" ++ jsToString (jsIndex creds "port") ++
          "/" ++ instName)) ∧
    (env.VCAP_SERVICES = some vs → env.CF_REDIS_SERVICE = some svcName →
      JSONparse vs.data = some (Json.obj m) →
      jsIndex (Json.obj m) svcName = none →
      buildCloudFoundryURL env = Except.error CfError.noService) ∧
    (env.VCAP_SERVICES = some vs → env.CF_REDIS_SERVICE = some svcName →
      JSONparse vs.data = some (Json.obj m) →
      jsIndex (Json.obj m) svcName = some (Json.arr xs) →
      findInstance xs env.CF_REDIS_INSTANCE_NAME = none →
      buildCloudFoundryURL env = Except.error CfError.noInstance) ∧
    (env.VCAP_SERVICES = some vs → env.CF_REDIS_SERVICE = some svcName →
      JSONparse vs.data = some (Json.obj m) →
      jsIndex (Json.obj m) svcName = some (Json.arr xs) →
      findInstance xs env.CF_REDIS_INSTANCE_NAME = some inst →
      jsIndex inst "credentials" = none →
      buildCloudFoundryURL env = Except.error CfError.noCredentials) := by
  refine ⟨?_, ?_, ?_, ?_⟩
  · intro h1 h2 h3 h4 h5 h6 h7
    simp [buildCloudFoundryURL, h1, h2, h3, h4, h5, h6, h7]
  · intro h1 h2 h3 h4
    simp [buildCloudFoundryURL, h1, h2, h3, h4]
  · intro h1 h2 h3 h4 h5
    simp [buildCloudFoundryURL, h1, h2, h3, h4, h5]
  · intro h1 h2 h3 h4 h5 h6
    simp [buildCloudFoundryURL, h1, h2, h3, h4, h5, h6]

/-- The credentials of the example service instance. -/
def credsEx : Json :=
  Json.obj (JsonMembers.cons "host".data (Json.str "redis.example.com".data)
    (JsonMembers.cons "port".data (Json.num 6379)
      (JsonMembers.cons "password".data (Json.str "secret".data) JsonMembers.nil)))

/-- The example service instance named `mybrain`. -/
def instEx : Json :=
  Json.obj (JsonMembers.cons "name".data (Json.str "mybrain".data)
    (JsonMembers.cons "credentials".data credsEx JsonMembers.nil))

/-- The example services-by-name object: one `p-redis` service with one
instance. -/
def mEx : JsonMembers :=
  JsonMembers.cons "p-redis".data (Json.arr (JsonList.cons instEx JsonList.nil)) JsonMembers.nil

/-- The example `VCAP_SERVICES` JSON text. -/
def vcapEx : String :=
  "\x7b\"p-redis\":[\x7b\"name\":\"mybrain\",\"credentials\":\x7b\"host\":\"redis.example.com\",\"port\":6379,\"password\":\"secret\"\x7d\x7d]\x7d"

/-- A Cloud-Foundry-only environment using the example descriptor. -/
def envCf : Env :=
  { REDISTOGO_URL := none, REDISCLOUD_URL := none, BOXEN_REDIS_URL := none,
    REDIS_URL := none, CF_REDIS_SERVICE := some "p-redis",
    CF_REDIS_INSTANCE_NAME := some "mybrain", REDIS_NO_CHECK := none,
    VCAP_SERVICES := some vcapEx }

/-- C7 witnessed on the example descriptor: the URL is assembled exactly as
`redis://:{password}@{host}:{port}/{instance-name}`. -/
theorem cloudfoundry_url_witness :
    buildCloudFoundryURL envCf = Except.ok "redis://:secret@redis.example.com:6379/mybrain" := by
  have h := (cloudfoundry_url envCf vcapEx "p-redis" "mybrain" mEx
      (JsonList.cons instEx JsonList.nil) instEx credsEx).1
    rfl rfl rfl (by decide) (by decide) (by decide) (by decide)
  rw [h]
  rfl

end RedisBrain
